import Mathlib

/-!
Verification of the DynamO event-driven molecular-dynamics core.

This file shallowly embeds the parts of the repository that the verified
properties concern:

* `src/magnet/magnet/math/polynomial.hpp` — the fixed-order polynomial
  class `Polynomial<Order, double>`, its Horner evaluation
  `operator()`, the closed-form root solvers `solve_roots` for orders
  0, 1 and 2, the interval bound `max_abs_val`, and the index pattern of
  the order-promotion constructor.
* `src/dynamo/dynamo/simulation.cpp` — `Simulation::simShutdown` and the
  event loop of `Simulation::runSimulation`.

The C++ `double` arithmetic is idealised as exact real arithmetic:
`std::sqrt` becomes `Real.sqrt` and `std::copysign` keeps the C++
convention that `+0.0` counts as positive.  Exceptions thrown by the
event loop body are modelled with `Except String`.
-/

namespace DynamoSpec

/-- `Polynomial<0, double>`: the single coefficient `f[0]`. -/
structure Poly0 where
  c0 : ℝ

/-- `Polynomial<1, double>`: coefficients `f[0], f[1]`, lowest order first. -/
structure Poly1 where
  c0 : ℝ
  c1 : ℝ

/-- `Polynomial<2, double>`: coefficients `f[0], f[1], f[2]`, lowest order first. -/
structure Poly2 where
  c0 : ℝ
  c1 : ℝ
  c2 : ℝ

/-- `Polynomial::operator()` for order 0: `sum = f[0]`. -/
def eval0 (f : Poly0) (_ : ℝ) : ℝ := f.c0

/-- `Polynomial::operator()` for order 1 (Horner): `sum = f[1]; sum = sum*x + f[0]`. -/
def eval1 (f : Poly1) (x : ℝ) : ℝ := f.c1 * x + f.c0

/-- `Polynomial::operator()` for order 2 (Horner):
`sum = f[2]; sum = sum*x + f[1]; sum = sum*x + f[0]`. -/
def eval2 (f : Poly2) (x : ℝ) : ℝ := (f.c2 * x + f.c1) * x + f.c0

/-- `std::copysign(x, y)`: the magnitude of `x` carrying the sign of `y`,
with the real number `0` treated as `+0.0` (positive sign). -/
noncomputable def copysign (x y : ℝ) : ℝ := if y < 0 then -|x| else |x|

/-- The local `arg` of the order-2 `solve_roots`: the discriminant
`f[1]*f[1] - 4*f[2]*f[0]`. -/
def discrim2 (f : Poly2) : ℝ := f.c1 * f.c1 - 4 * f.c2 * f.c0

/-- The local `root1` of the order-2 `solve_roots`:
`-(f[1] + std::copysign(std::sqrt(arg), f[1])) / (2 * f[2])`. -/
noncomputable def root1 (f : Poly2) : ℝ :=
  -(f.c1 + copysign (Real.sqrt (discrim2 f)) f.c1) / (2 * f.c2)

/-- The local `root2` of the order-2 `solve_roots`: `f[0] / (f[2] * root1)`. -/
noncomputable def root2 (f : Poly2) : ℝ := f.c0 / (f.c2 * root1 f)

/-- `solve_roots(Polynomial<0, double>)`: always the empty root set. -/
def solve_roots0 (_ : Poly0) : List ℝ := []

/-- `solve_roots(Polynomial<1, double>)`: pushes `-f[0]/f[1]` when `f[1] != 0`. -/
noncomputable def solve_roots1 (f : Poly1) : List ℝ :=
  if f.c1 ≠ 0 then [-f.c0 / f.c1] else []

/-- `solve_roots(Polynomial<2, double>)`: reduce to order 1 when `f[2] == 0`;
otherwise case analysis on the discriminant `arg`. -/
noncomputable def solve_roots2 (f : Poly2) : List ℝ :=
  if f.c2 = 0 then solve_roots1 ⟨f.c0, f.c1⟩
  else if discrim2 f < 0 then []
  else if discrim2 f = 0 then [-f.c1 / (2 * f.c2)]
  else [root1 f, root2 f]

/-- The local `droot` of the order-2 `max_abs_val`: `-f[1] / (2 * f[2])`. -/
noncomputable def droot (f : Poly2) : ℝ := -f.c1 / (2 * f.c2)

/-- `max_abs_val(Polynomial<0>, tmin, tmax)`: `std::abs(f[0])`. -/
def max_abs_val0 (f : Poly0) (_ _ : ℝ) : ℝ := |f.c0|

/-- `max_abs_val(Polynomial<1>, tmin, tmax)`. -/
def max_abs_val1 (f : Poly1) (tmin tmax : ℝ) : ℝ :=
  max |eval1 f tmin| |eval1 f tmax|

/-- `max_abs_val(Polynomial<2>, tmin, tmax)`: endpoint values, additionally
comparing the value at `droot` when `droot` lies strictly inside the range. -/
noncomputable def max_abs_val2 (f : Poly2) (tmin tmax : ℝ) : ℝ :=
  let retval := max |eval2 f tmin| |eval2 f tmax|
  if tmin < droot f ∧ droot f < tmax then max |eval2 f (droot f)| retval else retval

/-- The sequence of indices written by the order-promotion constructor
`Polynomial<Order>(const Polynomial<N, Real2>&)`: the copy loop runs
`for (i = 0; i <= N; ++i)` and the zero-fill loop continues
`for (; i <= Order + 1; ++i)`.  `M` stands for the template parameter
`Order`. -/
def promotionWriteIndices (N M : ℕ) : List ℕ :=
  List.range (N + 1) ++ List.range' (N + 1) (M + 1 - N)

/-- The fields of `dynamo::Simulation` that `simShutdown` and the
`runSimulation` loop use.  `dSysTime` is carried to show what the abort
diagnostic does and does not depend on. -/
structure SimState where
  eventCount : ℕ
  endEventCount : ℕ
  nextPrintEvent : ℕ
  dSysTime : ℝ

/-- `Simulation::simShutdown()`: `nextPrintEvent = endEventCount = eventCount`. -/
def simShutdown (s : SimState) : SimState :=
  { s with nextPrintEvent := s.eventCount, endEventCount := s.eventCount }

/-- The message built by the `catch` block of `Simulation::runSimulation`:
`M_throw() << "\nWhile executing event " << eventCount << cep.what()`. -/
def eventDiagnostic (n : ℕ) (what : String) : String :=
  "\nWhile executing event " ++ toString n ++ what

/-- The `while (eventCount < endEventCount)` loop of
`Simulation::runSimulation`, with the body (`ptrScheduler->runNextEvent()`
plus periodic output, which touches no loop-relevant state) abstracted as a
fallible state transformer and unrolled up to `fuel` iterations.  Returns
the outcome together with the number of body executions; an exception from
the body is rethrown with `eventDiagnostic` and ends the run. -/
def runSimulationLoop (runNextEvent : SimState → Except String SimState) :
    ℕ → SimState → Except String SimState × ℕ
  | 0, s => (Except.ok s, 0)
  | fuel + 1, s =>
    if s.eventCount < s.endEventCount then
      match runNextEvent s with
      | Except.ok s2 =>
        let rest := runSimulationLoop runNextEvent fuel s2
        (rest.1, rest.2 + 1)
      | Except.error msg => (Except.error (eventDiagnostic s.eventCount msg), 1)
    else (Except.ok s, 0)

/-- C3: an order-2 polynomial with `c2 = 0` is solved exactly as the order-1
solver on `(c0, c1)`, and with `c1 = 0` as well the root set is empty; root
solving is a total function, so no degenerate case signals an error. -/
theorem solve_roots2_degenerate_reduction (f : Poly2) (h : f.c2 = 0) :
    solve_roots2 f = solve_roots1 ⟨f.c0, f.c1⟩ ∧
    (f.c1 = 0 → solve_roots2 f = []) := by
  constructor
  · simp [solve_roots2, h]
  · intro h1
    simp [solve_roots2, solve_roots1, h, h1]

/-- Witness for C3 at the concrete degenerate inputs `5 + 0*x + 0*x^2`
and `0 + 0*x + 0*x^2`. -/
theorem solve_roots2_degenerate_reduction_witness :
    solve_roots2 ⟨5, 0, 0⟩ = solve_roots1 ⟨5, 0⟩ ∧ solve_roots2 ⟨0, 0, 0⟩ = [] :=
  ⟨(solve_roots2_degenerate_reduction ⟨5, 0, 0⟩ rfl).1,
   (solve_roots2_degenerate_reduction ⟨0, 0, 0⟩ rfl).2 rfl⟩

/-- C10: the order-0 solver returns the empty root set for every
coefficient, and the order-1 solver returns the empty set whenever
`c1 = 0`, including the identically-zero polynomial; both are total
functions, so the zero polynomial is never reported as an error. -/
theorem solve_roots_zero_poly_empty :
    (∀ f : Poly0, solve_roots0 f = []) ∧
    (∀ f : Poly1, f.c1 = 0 → solve_roots1 f = []) := by
  refine ⟨fun f => rfl, fun f h1 => ?_⟩
  simp [solve_roots1, h1]

/-- Witness for C10 at the zero polynomials of orders 0 and 1. -/
theorem solve_roots_zero_poly_empty_witness :
    solve_roots0 ⟨0⟩ = [] ∧ solve_roots1 ⟨0, 0⟩ = [] :=
  ⟨solve_roots_zero_poly_empty.1 ⟨0⟩, solve_roots_zero_poly_empty.2 ⟨0, 0⟩ rfl⟩

/-- C5: promoting `Polynomial<0, double>` to `Polynomial<2, double>` makes
the zero-fill loop write index `3 = Order + 1`, which is not a valid index
of the `std::array<double, 3>` coefficient storage (valid indices are
`0..2`): an out-of-bounds write. -/
theorem promotion_constructor_oob_write :
    2 + 1 ∈ promotionWriteIndices 0 2 ∧ ¬(2 + 1 ≤ 2) := by decide

/-- C7: `simShutdown` sets `endEventCount` to the current `eventCount`, so
the `runSimulation` loop condition is false and the loop executes no
further event: for every body `rne` and every unrolling depth, zero body
executions happen and the state is returned unchanged. -/
theorem runSimulation_stops_after_shutdown
    (rne : SimState → Except String SimState) (fuel : ℕ) (s : SimState) :
    (simShutdown s).endEventCount = s.eventCount ∧
    runSimulationLoop rne fuel (simShutdown s) = (Except.ok (simShutdown s), 0) := by
  refine ⟨rfl, ?_⟩
  cases fuel with
  | zero => rfl
  | succ n => simp [runSimulationLoop, simShutdown]

/-- C8 counterexample: the rethrown diagnostic is built only from the event
count and the inner exception text, so two failing events at different
simulation times (and hence of any kind, with any participants) produce the
identical diagnostic — it does not identify the event's time, kind or
participants. -/
theorem runSimulation_diagnostic_ignores_time :
    runSimulationLoop (fun _ => Except.error "") 1 ⟨0, 1, 0, 0⟩ =
      (Except.error "\nWhile executing event 0", 1) ∧
    runSimulationLoop (fun _ => Except.error "") 1 ⟨0, 1, 0, 1⟩ =
      (Except.error "\nWhile executing event 0", 1) ∧
    (⟨0, 1, 0, 0⟩ : SimState).dSysTime ≠ (⟨0, 1, 0, 1⟩ : SimState).dSysTime := by
  refine ⟨rfl, rfl, by norm_num⟩

/-- C8 (amended): when the loop body raises an exception, the run aborts by
rethrowing an exception whose diagnostic names the failing event by its
event count with the original message appended; the body is executed
exactly once more (the failed event is neither retried nor skipped past). -/
theorem runSimulation_abort_diagnostic
    (rne : SimState → Except String SimState) (fuel : ℕ) (s : SimState)
    (msg : String) (hlt : s.eventCount < s.endEventCount)
    (herr : rne s = Except.error msg) :
    runSimulationLoop rne (fuel + 1) s =
      (Except.error (eventDiagnostic s.eventCount msg), 1) := by
  simp [runSimulationLoop, hlt, herr]

/-- Witness for C8's amended theorem at a concrete failing run. -/
theorem runSimulation_abort_diagnostic_witness :
    runSimulationLoop (fun _ => Except.error "boom") 4 ⟨2, 9, 0, 0⟩ =
      (Except.error (eventDiagnostic 2 "boom"), 1) :=
  runSimulation_abort_diagnostic (fun _ => Except.error "boom") 3 ⟨2, 9, 0, 0⟩
    "boom" (by norm_num) rfl

/-- The square of a `copysign` is the square of its magnitude argument. -/
lemma copysign_sq (x y : ℝ) : copysign x y ^ 2 = x ^ 2 := by
  unfold copysign
  split_ifs <;> simp [sq_abs]

/-- `copysign` of a square root, spelled out by the sign of the target. -/
lemma copysign_sqrt (f : Poly2) :
    copysign (Real.sqrt (discrim2 f)) f.c1 =
      if f.c1 < 0 then -Real.sqrt (discrim2 f) else Real.sqrt (discrim2 f) := by
  unfold copysign
  split_ifs <;> rw [abs_of_nonneg (Real.sqrt_nonneg _)]

/-- Evaluating the quadratic at any point of the shape the solver produces:
completing the square against the discriminant. -/
lemma quad_eval_formula (f : Poly2) (h2 : f.c2 ≠ 0) (u : ℝ) :
    eval2 f (-(f.c1 + u) / (2 * f.c2)) = (u ^ 2 - discrim2 f) / (4 * f.c2) := by
  rw [eval2, discrim2]
  field_simp
  ring

/-- In the two-root branch the directly computed root is nonzero: the
sign-stabilised numerator `f[1] + copysign(sqrt(arg), f[1])` adds two
quantities of the same sign, at least one strictly. -/
lemma root1_ne_zero (f : Poly2) (h2 : f.c2 ≠ 0) (hd : 0 < discrim2 f) :
    root1 f ≠ 0 := by
  have hs : 0 < Real.sqrt (discrim2 f) := Real.sqrt_pos.mpr hd
  have hden : (2 : ℝ) * f.c2 ≠ 0 := mul_ne_zero two_ne_zero h2
  rw [root1, copysign_sqrt]
  rcases lt_or_le f.c1 0 with h | h
  · rw [if_pos h]
    refine div_ne_zero (fun hc => ?_) hden
    linarith
  · rw [if_neg (not_lt.mpr h)]
    refine div_ne_zero (fun hc => ?_) hden
    linarith

/-- The directly computed root of the two-root branch is an exact root. -/
lemma root1_is_root (f : Poly2) (h2 : f.c2 ≠ 0) (hd : 0 ≤ discrim2 f) :
    eval2 f (root1 f) = 0 := by
  rw [root1, quad_eval_formula f h2, copysign_sq, Real.sq_sqrt hd, sub_self,
    zero_div]

/-- The derived root `f[0] / (f[2] * root1)` is an exact root. -/
lemma root2_is_root (f : Poly2) (h2 : f.c2 ≠ 0) (hd : 0 < discrim2 f) :
    eval2 f (root2 f) = 0 := by
  have hr1 := root1_ne_zero f h2 hd
  have key : eval2 f (root2 f)
      = f.c0 * eval2 f (root1 f) / (f.c2 * root1 f ^ 2) := by
    rw [eval2, eval2, root2]
    field_simp
    ring
  rw [key, root1_is_root f h2 hd.le, mul_zero, zero_div]

/-- The order-2 solver's two-root branch, as the returned list. -/
lemma solve_roots2_two_roots (f : Poly2) (h2 : f.c2 ≠ 0) (hd : 0 < discrim2 f) :
    solve_roots2 f = [root1 f, root2 f] := by
  rw [solve_roots2, if_neg h2, if_neg (not_lt.mpr hd.le), if_neg hd.ne']

/-- C1: for an order-2 polynomial with `c2 != 0` the solver performs the
discriminant case analysis: negative discriminant gives no roots, zero
gives the single double root `-c1/(2*c2)`, and positive gives the
sign-stabilised root `(-c1 - sign(c1)*sqrt(D))/(2*c2)` followed by the
derived root `c0/(c2*root1)`. -/
theorem solve_roots2_case_analysis (f : Poly2) (h2 : f.c2 ≠ 0) :
    (discrim2 f < 0 → solve_roots2 f = []) ∧
    (discrim2 f = 0 → solve_roots2 f = [-f.c1 / (2 * f.c2)]) ∧
    (0 < discrim2 f → solve_roots2 f =
      [(-f.c1 - copysign (Real.sqrt (discrim2 f)) f.c1) / (2 * f.c2),
       f.c0 / (f.c2 *
         ((-f.c1 - copysign (Real.sqrt (discrim2 f)) f.c1) / (2 * f.c2)))]) := by
  refine ⟨fun hd => ?_, fun hd => ?_, fun hd => ?_⟩
  · rw [solve_roots2, if_neg h2, if_pos hd]
  · rw [solve_roots2, if_neg h2, if_neg (not_lt.mpr hd.ge), if_pos hd]
  · have hroot : root1 f
        = (-f.c1 - copysign (Real.sqrt (discrim2 f)) f.c1) / (2 * f.c2) := by
      rw [root1]
      ring
    rw [solve_roots2_two_roots f h2 hd, root2, hroot]

/-- Witness for C1 at `1 + 0*x + 1*x^2`, whose discriminant is `-4`. -/
theorem solve_roots2_case_analysis_witness : solve_roots2 ⟨1, 0, 1⟩ = [] :=
  (solve_roots2_case_analysis ⟨1, 0, 1⟩ (by norm_num)).1 (by norm_num [discrim2])

/-- C9: in the two-root branch the directly computed root is never zero, so
the division deriving the second root has a nonzero denominator, on every
input reaching that branch. -/
theorem root1_nonzero_two_root_branch (f : Poly2) (h2 : f.c2 ≠ 0)
    (hd : 0 < discrim2 f) :
    root1 f ≠ 0 ∧ f.c2 * root1 f ≠ 0 ∧
    solve_roots2 f = [root1 f, f.c0 / (f.c2 * root1 f)] := by
  refine ⟨root1_ne_zero f h2 hd, mul_ne_zero h2 (root1_ne_zero f h2 hd), ?_⟩
  rw [solve_roots2_two_roots f h2 hd, root2]

/-- Witness for C9 at `-1 + 0*x + 1*x^2`, whose discriminant is `4`. -/
theorem root1_nonzero_two_root_branch_witness : root1 (⟨-1, 0, 1⟩ : Poly2) ≠ 0 :=
  (root1_nonzero_two_root_branch ⟨-1, 0, 1⟩ (by norm_num)
    (by norm_num [discrim2])).1

/-- The solver on the concrete double-root input `1 - 2*x + 1*x^2`. -/
lemma solve_roots2_double_root_example : solve_roots2 ⟨1, -2, 1⟩ = [1] := by
  have h2 : (⟨1, -2, 1⟩ : Poly2).c2 ≠ 0 := by norm_num
  have hd : discrim2 ⟨1, -2, 1⟩ = 0 := by norm_num [discrim2]
  rw [solve_roots2, if_neg h2, if_neg (not_lt.mpr hd.ge), if_pos hd]
  norm_num

/-- C2: every root returned by any of the order-0, order-1 and order-2
solvers is an exact root of the polynomial in exact real arithmetic; in
particular, in the two-root branch both the directly computed root and the
derived root `c0/(c2*root1)` evaluate to zero. -/
theorem solve_roots_returns_exact_roots :
    (∀ (f : Poly0) (r : ℝ), r ∈ solve_roots0 f → eval0 f r = 0) ∧
    (∀ (f : Poly1) (r : ℝ), r ∈ solve_roots1 f → eval1 f r = 0) ∧
    (∀ (f : Poly2) (r : ℝ), r ∈ solve_roots2 f → eval2 f r = 0) := by
  have order1 : ∀ (f : Poly1) (r : ℝ), r ∈ solve_roots1 f → eval1 f r = 0 := by
    intro f r hr
    rw [solve_roots1] at hr
    by_cases h1 : f.c1 ≠ 0
    · rw [if_pos h1, List.mem_singleton] at hr
      subst hr
      rw [eval1]
      field_simp
      ring
    · rw [if_neg h1] at hr
      exact absurd hr (List.not_mem_nil r)
  refine ⟨fun f r hr => absurd hr (List.not_mem_nil r), order1, fun f r hr => ?_⟩
  by_cases h2 : f.c2 = 0
  · rw [solve_roots2, if_pos h2] at hr
    have := order1 ⟨f.c0, f.c1⟩ r hr
    rw [eval1] at this
    rw [eval2, h2]
    linarith [this]
  · rcases lt_trichotomy (discrim2 f) 0 with hd | hd | hd
    · rw [solve_roots2, if_neg h2, if_pos hd] at hr
      exact absurd hr (List.not_mem_nil r)
    · rw [solve_roots2, if_neg h2, if_neg (not_lt.mpr hd.ge), if_pos hd,
        List.mem_singleton] at hr
      subst hr
      have heq : -f.c1 / (2 * f.c2) = -(f.c1 + 0) / (2 * f.c2) := by ring
      rw [heq, quad_eval_formula f h2, hd]
      norm_num
    · rw [solve_roots2_two_roots f h2 hd, List.mem_cons,
        List.mem_singleton] at hr
      rcases hr with hr | hr
      · exact hr ▸ root1_is_root f h2 hd.le
      · exact hr ▸ root2_is_root f h2 hd

/-- Witness for C2 at the double root `1` of `1 - 2*x + 1*x^2`. -/
theorem solve_roots_returns_exact_roots_witness : eval2 ⟨1, -2, 1⟩ 1 = 0 :=
  solve_roots_returns_exact_roots.2.2 ⟨1, -2, 1⟩ 1
    (by rw [solve_roots2_double_root_example]; exact List.mem_singleton.mpr rfl)

/-- C4: in the two-root branch the returned roots satisfy Vieta's
relations exactly: their product is `c0/c2` and their sum is `-c1/c2`. -/
theorem solve_roots2_vieta (f : Poly2) (h2 : f.c2 ≠ 0) (hd : 0 < discrim2 f) :
    solve_roots2 f = [root1 f, root2 f] ∧
    root1 f * root2 f = f.c0 / f.c2 ∧
    root1 f + root2 f = -f.c1 / f.c2 := by
  have hr1 := root1_ne_zero f h2 hd
  have hroot := root1_is_root f h2 hd.le
  rw [eval2] at hroot
  refine ⟨solve_roots2_two_roots f h2 hd, ?_, ?_⟩
  · rw [root2]
    field_simp
    ring
  · have hc0 : f.c0 = -((f.c2 * root1 f + f.c1) * root1 f) := by linarith
    rw [root2, hc0]
    field_simp
    ring

/-- Witness for C4 at `-1 + 0*x + 1*x^2`. -/
theorem solve_roots2_vieta_witness :
    root1 (⟨-1, 0, 1⟩ : Poly2) * root2 ⟨-1, 0, 1⟩ = (-1 : ℝ) / 1 ∧
    root1 (⟨-1, 0, 1⟩ : Poly2) + root2 ⟨-1, 0, 1⟩ = -(0 : ℝ) / 1 := by
  have h := solve_roots2_vieta ⟨-1, 0, 1⟩ (by norm_num) (by norm_num [discrim2])
  exact ⟨h.2.1, h.2.2⟩

/-- Completing the square: the quadratic in vertex form around `droot`. -/
lemma eval2_vertex_form (f : Poly2) (h2 : f.c2 ≠ 0) (t : ℝ) :
    eval2 f t = f.c2 * (t - droot f) ^ 2 + eval2 f (droot f) := by
  rw [eval2, eval2, droot]
  field_simp
  ring

/-- An affine function of `q` on an interval is bounded in absolute value
by its values at the interval's ends, whatever the sign of the slope. -/
lemma linear_abs_bound (c k qlo qhi q : ℝ) (h1 : qlo ≤ q) (h2 : q ≤ qhi) :
    |c * q + k| ≤ max |c * qlo + k| |c * qhi + k| := by
  rcases le_total 0 c with hc | hc
  · exact abs_le_max_abs_abs (by nlinarith) (by nlinarith)
  · rw [max_comm]
    exact abs_le_max_abs_abs (by nlinarith) (by nlinarith)

/-- On `[a, b]` the squared distance to any `v` is maximised at an end. -/
lemma sq_le_max_endpoints {a b v t : ℝ} (h1 : a ≤ t) (h2 : t ≤ b) :
    (t - v) ^ 2 ≤ max ((a - v) ^ 2) ((b - v) ^ 2) := by
  have habs : |t - v| ≤ max |a - v| |b - v| :=
    abs_le_max_abs_abs (by linarith) (by linarith)
  calc (t - v) ^ 2 = |t - v| ^ 2 := (sq_abs _).symm
    _ ≤ (max |a - v| |b - v|) ^ 2 := pow_le_pow_left₀ (abs_nonneg _) habs 2
    _ ≤ max ((a - v) ^ 2) ((b - v) ^ 2) := by
        rcases max_choice |a - v| |b - v| with h | h <;> rw [h, sq_abs]
        · exact le_max_left _ _
        · exact le_max_right _ _

/-- When `v` lies left of `[a, t]` the squared distance grows with `t`. -/
lemma sq_ge_left {a v t : ℝ} (hv : v ≤ a) (h1 : a ≤ t) :
    (a - v) ^ 2 ≤ (t - v) ^ 2 := by nlinarith

/-- When `v` lies right of `[t, b]` the squared distance grows leftwards. -/
lemma sq_ge_right {b v t : ℝ} (hv : b ≤ v) (h2 : t ≤ b) :
    (b - v) ^ 2 ≤ (t - v) ^ 2 := by nlinarith

/-- `max_abs_val2` when `droot` is strictly inside the range. -/
lemma max_abs_val2_inside (f : Poly2) (tmin tmax : ℝ)
    (hin : tmin < droot f ∧ droot f < tmax) :
    max_abs_val2 f tmin tmax
      = max |eval2 f (droot f)| (max |eval2 f tmin| |eval2 f tmax|) := by
  simp only [max_abs_val2]
  rw [if_pos hin]

/-- `max_abs_val2` when `droot` is not strictly inside the range. -/
lemma max_abs_val2_outside (f : Poly2) (tmin tmax : ℝ)
    (hout : ¬(tmin < droot f ∧ droot f < tmax)) :
    max_abs_val2 f tmin tmax = max |eval2 f tmin| |eval2 f tmax| := by
  simp only [max_abs_val2]
  rw [if_neg hout]

/-- C6: for an order-2 polynomial with `c2 != 0` and a closed range
`[tmin, tmax]`, `max_abs_val` returns exactly the maximum of the absolute
value of the polynomial over the range: it bounds every point of the range
and is attained at one of `tmin`, `tmax` or the interior vertex. -/
theorem max_abs_val2_isGreatest (f : Poly2) (tmin tmax : ℝ) (h2 : f.c2 ≠ 0)
    (hab : tmin ≤ tmax) :
    (∀ t, tmin ≤ t → t ≤ tmax → |eval2 f t| ≤ max_abs_val2 f tmin tmax) ∧
    (∃ t, tmin ≤ t ∧ t ≤ tmax ∧ |eval2 f t| = max_abs_val2 f tmin tmax) := by
  have hform := eval2_vertex_form f h2
  by_cases hin : tmin < droot f ∧ droot f < tmax
  · constructor
    · intro t ht1 ht2
      rw [max_abs_val2_inside f tmin tmax hin, hform t]
      have hb := linear_abs_bound f.c2 (eval2 f (droot f)) 0
        (max ((tmin - droot f) ^ 2) ((tmax - droot f) ^ 2)) ((t - droot f) ^ 2)
        (sq_nonneg _) (sq_le_max_endpoints ht1 ht2)
      refine le_trans hb (max_le_max (le_of_eq (by rw [mul_zero, zero_add])) ?_)
      rcases max_choice ((tmin - droot f) ^ 2) ((tmax - droot f) ^ 2) with
        hm | hm <;> rw [hm]
      · rw [← hform tmin]
        exact le_max_left _ _
      · rw [← hform tmax]
        exact le_max_right _ _
    · rw [max_abs_val2_inside f tmin tmax hin]
      rcases max_choice |eval2 f (droot f)| (max |eval2 f tmin| |eval2 f tmax|)
        with hm | hm
      · exact ⟨droot f, hin.1.le, hin.2.le, by rw [hm]⟩
      · rcases max_choice |eval2 f tmin| |eval2 f tmax| with hm2 | hm2
        · exact ⟨tmin, le_refl _, hab, by rw [hm, hm2]⟩
        · exact ⟨tmax, hab, le_refl _, by rw [hm, hm2]⟩
  · have hout : droot f ≤ tmin ∨ tmax ≤ droot f := by
      rcases not_and_or.mp hin with h | h
      · exact Or.inl (not_lt.mp h)
      · exact Or.inr (not_lt.mp h)
    constructor
    · intro t ht1 ht2
      rw [max_abs_val2_outside f tmin tmax hin, hform t]
      have hqlo : min ((tmin - droot f) ^ 2) ((tmax - droot f) ^ 2)
          ≤ (t - droot f) ^ 2 := by
        rcases hout with h | h
        · exact le_trans (min_le_left _ _) (sq_ge_left h ht1)
        · exact le_trans (min_le_right _ _) (sq_ge_right h ht2)
      have hb := linear_abs_bound f.c2 (eval2 f (droot f))
        (min ((tmin - droot f) ^ 2) ((tmax - droot f) ^ 2))
        (max ((tmin - droot f) ^ 2) ((tmax - droot f) ^ 2)) ((t - droot f) ^ 2)
        hqlo (sq_le_max_endpoints ht1 ht2)
      refine le_trans hb (max_le ?_ ?_)
      · rcases min_choice ((tmin - droot f) ^ 2) ((tmax - droot f) ^ 2) with
          hm | hm <;> rw [hm]
        · rw [← hform tmin]
          exact le_max_left _ _
        · rw [← hform tmax]
          exact le_max_right _ _
      · rcases max_choice ((tmin - droot f) ^ 2) ((tmax - droot f) ^ 2) with
          hm | hm <;> rw [hm]
        · rw [← hform tmin]
          exact le_max_left _ _
        · rw [← hform tmax]
          exact le_max_right _ _
    · rw [max_abs_val2_outside f tmin tmax hin]
      rcases max_choice |eval2 f tmin| |eval2 f tmax| with hm | hm
      · exact ⟨tmin, le_refl _, hab, by rw [hm]⟩
      · exact ⟨tmax, hab, le_refl _, by rw [hm]⟩

/-- Witness for C6: `x^2` on `[-1, 2]`, whose vertex `0` is interior. -/
theorem max_abs_val2_isGreatest_witness :
    |eval2 ⟨0, 0, 1⟩ 1| ≤ max_abs_val2 ⟨0, 0, 1⟩ (-1) 2 :=
  (max_abs_val2_isGreatest ⟨0, 0, 1⟩ (-1) 2 (by norm_num) (by norm_num)).1 1
    (by norm_num) (by norm_num)

end DynamoSpec
